import Mathlib

/-!
Verification of the lumora-go middleware/routing/response core.

Shallow embedding of the Go source:
* `core` middleware composition (`Compose`, `Apply`),
* the net/http router pattern matcher (`matchPattern`),
* the `services.Container` dependency-injection store,
* the net/http adapter `contextImpl` service resolution and `UseServices`,
* the `core.Response` builder and its `Send` serialization, modelled as a
  trace of transport events replayed against net/http header-commit
  semantics,
* the error-handler middleware and the `HandleResponse` dispatcher,
* a heap-based model of `contextImpl.WithContext` reference sharing.
-/

namespace Lumora

/-! ### Middleware composition (`core`, part_005 / errorhandler.go)

In Go:
```
type Middleware func(Handler) Handler
func Compose(middlewares ...Middleware) Middleware {
    return func(next Handler) Handler {
        for i := len(middlewares) - 1; i >= 0; i-- {
            next = middlewares[i](next)
        }
        return next
    }
}
```
The loop walks the middleware slice from the last index down to 0, each
step rebinding `next`; we model it as a left fold over the reversed list.
The handler type is abstract (`H`): the repository instantiates it both
at `func(Context) error` and at `func(Context) (*Response, error)`.
-/

/-- `Middleware` wraps a handler of type `H` into a new handler. -/
abbrev Middleware (H : Type u) : Type u := H → H

/-- `core.Compose`: iterate `i = n-1, …, 0` with `next = mws[i](next)`. -/
def Compose (middlewares : List (Middleware H)) : Middleware H :=
  fun next => middlewares.reverse.foldl (fun acc m => m acc) next

/-- `core.Apply`: apply composed middleware to a handler. -/
def Apply (handler : H) (middlewares : List (Middleware H)) : H :=
  Compose middlewares handler

/-! Trace instrumentation used to observe the runtime invocation order of a
composed chain: a handler maps the log accumulated so far to the final log. -/

/-- Events recorded while a composed chain runs: the pre-logic of middleware
`i`, the terminal handler, the post-logic of middleware `i`. -/
inductive TraceEv
  | pre (i : Nat)
  | handler
  | post (i : Nat)
  deriving DecidableEq, Repr

/-- A handler instrumented to log events. -/
abbrev TraceHandler := List TraceEv → List TraceEv

/-- Middleware number `i`: records its pre-logic, delegates, then records its
post-logic on the way back out. -/
def tagMW (i : Nat) : Middleware TraceHandler :=
  fun next => fun log => next (log ++ [TraceEv.pre i]) ++ [TraceEv.post i]

/-- The terminal handler of the instrumented chain. -/
def terminalTrace : TraceHandler :=
  fun log => log ++ [TraceEv.handler]

/-! ### Route pattern matching (net/http adapter router, part_006)

```
func matchPattern(pattern, path string) map[string]string {
    patternParts := strings.Split(strings.Trim(pattern, "/"), "/")
    pathParts := strings.Split(strings.Trim(path, "/"), "/")
    if len(patternParts) != len(pathParts) { return nil }
    params := make(map[string]string)
    for i, patternPart := range patternParts {
        pathPart := pathParts[i]
        if strings.HasPrefix(patternPart, ":") {
            params[strings.TrimPrefix(patternPart, ":")] = pathPart
        } else if patternPart != pathPart { return nil }
    }
    return params
}
```
Strings are modelled as character lists; `splitChar` has Go's
`strings.Split` semantics (splitting the empty string yields `[""]`),
`trimChar` has `strings.Trim` semantics for a single cut character.
-/

/-- Go `strings.Split` on a one-character separator. -/
def splitChar (c : Char) : List Char → List (List Char)
  | [] => [[]]
  | x :: xs =>
      if x = c then [] :: splitChar c xs
      else
        match splitChar c xs with
        | [] => [[x]]
        | s :: ss => (x :: s) :: ss

/-- Go `strings.Trim(s, cutset)` for a one-character cutset: remove the
leading and trailing runs of `c`. -/
def trimChar (c : Char) (l : List Char) : List Char :=
  (((l.dropWhile (· = c)).reverse.dropWhile (· = c))).reverse

/-- The path split into segments after trimming slashes, as in the router. -/
def segmentsL (s : List Char) : List (List Char) :=
  splitChar '/' (trimChar '/' s)

/-- `strings.HasPrefix(seg, ":")`. -/
def isParamSeg : List Char → Bool
  | ':' :: _ => true
  | _ => false

/-- `strings.TrimPrefix(seg, ":")` on a segment known to start with `:`. -/
def paramName (seg : List Char) : List Char :=
  seg.drop 1

/-- The router loop over the zipped pattern/path segments: parameter
segments bind, literal segments must match exactly, a mismatch aborts. -/
def matchParts : List (List Char × List Char) → Option (List (List Char × List Char))
  | [] => some []
  | (pp, qp) :: rest =>
      if isParamSeg pp then
        (matchParts rest).map (fun params => (paramName pp, qp) :: params)
      else if pp = qp then matchParts rest
      else none

/-- `matchPattern`: `nil` (here `none`) when the segment counts differ or a
literal segment mismatches, otherwise the accumulated parameter bindings. -/
def matchPattern (pattern path : String) : Option (List (String × String)) :=
  let patternParts := segmentsL pattern.toList
  let pathParts := segmentsL path.toList
  if patternParts.length = pathParts.length then
    (matchParts (patternParts.zip pathParts)).map
      (fun params => params.map (fun p => (String.mk p.1, String.mk p.2)))
  else none

/-! ### Service container (`services.Container`, part_008 / part_009)

The Go container wraps `map[string]interface{}` behind a reader/writer
lock; within one request the operations are sequential, so the map is
modelled as a partial function `String → Option V`.  `Get` fails with a
not-found error carrying the name; `MustGet` panics on that error, which
the embedding renders as `none`. -/

/-- The failures service lookup can produce. -/
inductive ServiceError
  | notFound (name : String)
  | containerUnavailable
  deriving DecidableEq, Repr

/-- `services.Container`: a name-keyed store of values. -/
def Container (V : Type) : Type := String → Option V

/-- `services.NewContainer`: the empty store. -/
def Container.NewContainer : Container V := fun _ => none

/-- `Container.Register`: store `service` under `name`, overwriting. -/
def Container.Register (c : Container V) (name : String) (service : V) : Container V :=
  fun k => if k = name then some service else c k

/-- `Container.Get`: the stored value, or a not-found error. -/
def Container.Get (c : Container V) (name : String) : Except ServiceError V :=
  match c name with
  | some service => Except.ok service
  | none => Except.error (ServiceError.notFound name)

/-- `Container.MustGet`: `Get`, panicking (modelled as `none`) on error. -/
def Container.MustGet (c : Container V) (name : String) : Option V :=
  match Container.Get c name with
  | Except.ok service => some service
  | Except.error _ => none

/-- `Container.Has`: whether a service is registered. -/
def Container.Has (c : Container V) (name : String) : Bool :=
  (c name).isSome

/-- `Container.Clear`: remove all services. -/
def Container.Clear (_ : Container V) : Container V :=
  fun _ => none

/-- The loop `for name, service := range src.All() { dst.Register(name, service) }`:
after it, every entry of `src` is present in `dst`, other entries of `dst`
are untouched. -/
def Container.RegisterAll (dst src : Container V) : Container V :=
  fun k =>
    match src k with
    | some service => some service
    | none => dst k

/-! ### net/http adapter context (`adapters/nethttp/context.go`)

`contextImpl` carries the path parameters, the per-request key-value bag
(`values`), and the app-level service container (possibly absent).  A bag
entry is an `interface{}` that may or may not be a `*services.Container`;
the Go type assertion is the `BagVal.container` pattern match. -/

/-- A value stored in the per-request bag. -/
inductive BagVal (V : Type)
  | container (c : Container V)
  | value (v : V)

/-- The reserved bag key publishing the request-scoped container. -/
def scopedServicesKey : String := "_scoped_services"

/-- The reserved bag key publishing the app-level container. -/
def appServicesKey : String := "_app_services"

/-- The state of `nethttp.contextImpl` relevant to service resolution. -/
structure ContextImpl (V : Type) where
  params : String → Option String
  values : String → Option (BagVal V)
  services : Option (Container V)

/-- `contextImpl.Get`: read the per-request bag. -/
def ContextImpl.Get (c : ContextImpl V) (key : String) : Option (BagVal V) :=
  c.values key

/-- `contextImpl.Set`: write the per-request bag. -/
def ContextImpl.Set (c : ContextImpl V) (key : String) (v : BagVal V) : ContextImpl V :=
  { c with values := fun k => if k = key then some v else c.values k }

/-- The fall-back branch shared by `Service` and `MustService`: use the
app-level container, failing when it is absent. -/
def ContextImpl.serviceFallback (c : ContextImpl V) (name : String) : Except ServiceError V :=
  match c.services with
  | none => Except.error ServiceError.containerUnavailable
  | some svcs => Container.Get svcs name

/-- `contextImpl.Service`: consult the scoped container published under the
reserved key first; on any failure there, fall back to the app level. -/
def ContextImpl.Service (c : ContextImpl V) (name : String) : Except ServiceError V :=
  match c.values scopedServicesKey with
  | some (BagVal.container svcs) =>
      match Container.Get svcs name with
      | Except.ok service => Except.ok service
      | Except.error _ => c.serviceFallback name
  | _ => c.serviceFallback name

/-- `contextImpl.MustService`: like `Service` but panicking (`none`). -/
def ContextImpl.MustService (c : ContextImpl V) (name : String) : Option V :=
  match c.values scopedServicesKey with
  | some (BagVal.container svcs) =>
      if Container.Has svcs name then Container.MustGet svcs name
      else
        match c.services with
        | none => none
        | some app => Container.MustGet app name
  | _ =>
      match c.services with
      | none => none
      | some app => Container.MustGet app name

/-! ### `useservices.UseServices` middleware -/

/-- `getAppServices`: the app-level container published in the bag, if any. -/
def getAppServices (ctx : ContextImpl V) : Option (Container V) :=
  match ctx.Get appServicesKey with
  | some (BagVal.container svcs) => some svcs
  | _ => none

/-- `setScopedServices`: publish the scoped container in the bag. -/
def setScopedServices (ctx : ContextImpl V) (c : Container V) : ContextImpl V :=
  ctx.Set scopedServicesKey (BagVal.container c)

/-- `useservices.UseServices`: build a fresh container, copy every app-level
entry into it, overlay the route-specific entries, publish it under the
reserved key, and delegate.  The handler result type `ρ` is abstract. -/
def UseServices (routeServices : Container V) (next : ContextImpl V → ρ) :
    ContextImpl V → ρ :=
  fun ctx =>
    let scopedContainer : Container V := Container.NewContainer
    let scopedContainer :=
      match getAppServices ctx with
      | some appServices => Container.RegisterAll scopedContainer appServices
      | none => scopedContainer
    let scopedContainer := Container.RegisterAll scopedContainer routeServices
    next (setScopedServices ctx scopedContainer)

/-! Concrete fixtures used by witnesses. -/

/-- An app-level container declaring `userService ↦ 1`. -/
def appW : Container Nat :=
  Container.Register Container.NewContainer "userService" 1

/-- A route-level container overriding `userService ↦ 2`. -/
def routeW : Container Nat :=
  Container.Register Container.NewContainer "userService" 2

/-- A request context as the net/http adapter builds it: the app container
is published in the bag and carried in the `services` field. -/
def ctxW : ContextImpl Nat where
  params := fun _ => none
  values := fun k => if k = appServicesKey then some (BagVal.container appW) else none
  services := some appW

/-! ### Response model (`core/response.go`)

`Response` accumulates a status code (default 200), a header map
(last-write-wins), the cookie list, and an untyped body.  `Send` is
modelled as the trace of transport operations it performs, in program
order: one `setHeader` per accumulated header, one `setCookie` per
accumulated cookie, the inferred `Content-Type` header when the body
needs one and none was accumulated, the status commit, and the body
write.  The trace is replayed against net/http semantics (`applyEv`):
header and cookie writes after the status commit are dropped and a second
status write is ignored. -/

/-- A JSON value: the shape of structured response bodies. -/
inductive Jval
  | str (s : String)
  | num (n : Int)
  | obj (fields : List (String × Jval))

/-- A response body (`interface{}`): either a Go `string` or structured
data serialized as JSON: the type switch in `Send` distinguishes exactly
these two cases. -/
inductive BodyVal
  | str (s : String)
  | json (j : Jval)

/-- `core.Cookie`. -/
structure Cookie where
  name : String
  value : String
  path : String
  domain : String
  maxAge : Int
  secure : Bool
  httpOnly : Bool
  sameSite : Nat

/-- `core.Response`. -/
structure Response where
  StatusCode : Nat
  Headers : List (String × String)
  Cookies : List Cookie
  Body : Option BodyVal

/-- Header-map update, last write wins (`map[name] = value`). -/
def setAssoc : List (String × String) → String → String → List (String × String)
  | [], name, value => [(name, value)]
  | (k, w) :: rest, name, value =>
      if k = name then (name, value) :: rest
      else (k, w) :: setAssoc rest name value

/-- Header-map lookup (`value, ok := map[name]`). -/
def lookupAssoc : List (String × String) → String → Option String
  | [], _ => none
  | (k, w) :: rest, name => if k = name then some w else lookupAssoc rest name

/-- `core.NewResponse`: status 200, no headers, no cookies, nil body. -/
def NewResponse : Response :=
  { StatusCode := 200, Headers := [], Cookies := [], Body := none }

/-- `Response.WithStatus`. -/
def Response.WithStatus (r : Response) (code : Nat) : Response :=
  { r with StatusCode := code }

/-- `Response.WithHeader`. -/
def Response.WithHeader (r : Response) (name value : String) : Response :=
  { r with Headers := setAssoc r.Headers name value }

/-- `Response.WithCookie`. -/
def Response.WithCookie (r : Response) (c : Cookie) : Response :=
  { r with Cookies := r.Cookies ++ [c] }

/-- `Response.WithBody`. -/
def Response.WithBody (r : Response) (b : BodyVal) : Response :=
  { r with Body := some b }

/-- Bytes written to the transport after the status commit. -/
inductive BodyWire
  | raw (s : String)
  | jsonEnc (j : Jval)

/-- One operation `Send` performs on the transport. -/
inductive WireEv
  | setHeader (name value : String)
  | setCookie (c : Cookie)
  | writeStatus (code : Nat)
  | writeBody (b : BodyWire)

/-- `Response.Send` as the trace of transport operations, in the order the
Go code performs them. -/
def Response.Send (r : Response) : List WireEv :=
  (r.Headers.map fun p => WireEv.setHeader p.1 p.2)
  ++ (r.Cookies.map WireEv.setCookie)
  ++ (match r.Body with
      | none => [WireEv.writeStatus r.StatusCode]
      | some (BodyVal.str s) =>
          (if (lookupAssoc r.Headers "Content-Type").isSome then []
           else [WireEv.setHeader "Content-Type" "text/plain"])
          ++ [WireEv.writeStatus r.StatusCode, WireEv.writeBody (BodyWire.raw s)]
      | some (BodyVal.json j) =>
          (if (lookupAssoc r.Headers "Content-Type").isSome then []
           else [WireEv.setHeader "Content-Type" "application/json"])
          ++ [WireEv.writeStatus r.StatusCode, WireEv.writeBody (BodyWire.jsonEnc j)])

/-- The observable state of the net/http transport. -/
structure Transport where
  headers : List (String × String)
  cookies : List Cookie
  status : Option Nat
  bodyChunks : List BodyWire

/-- The transport before anything is written. -/
def Transport.empty : Transport :=
  { headers := [], cookies := [], status := none, bodyChunks := [] }

/-- net/http semantics of one transport operation: once `WriteHeader` has
run (`status.isSome`), header and cookie mutations are silently dropped and
a second status write is ignored. -/
def applyEv (t : Transport) (e : WireEv) : Transport :=
  match e with
  | WireEv.setHeader name value =>
      if t.status.isSome then t
      else { t with headers := setAssoc t.headers name value }
  | WireEv.setCookie c =>
      if t.status.isSome then t
      else { t with cookies := t.cookies ++ [c] }
  | WireEv.writeStatus code =>
      if t.status.isSome then t
      else { t with status := some code }
  | WireEv.writeBody b =>
      { t with bodyChunks := t.bodyChunks ++ [b] }

/-- Replay a trace against a fresh transport. -/
def replay (evs : List WireEv) : Transport :=
  evs.foldl applyEv Transport.empty

/-! ### Structured errors and the error-handler middleware
(`middleware/errorhandler`, part_010) -/

/-- An error value flowing up the chain: either the structured HTTP error
or any other error. -/
inductive GoError
  | httpError (code : Nat) (message : String)
  | generic (message : String)
  deriving DecidableEq, Repr

/-- Modelled from the spec: `core.GetHTTPError` and the structured HTTP
error type it recognizes live in a `core` errors file absent from the
sources; per the spec (§7) a structured HTTP error carries a status code
and message used verbatim, and any other error is not recognized. -/
def GetHTTPError : GoError → Option (Nat × String)
  | GoError.httpError code message => some (code, message)
  | GoError.generic _ => none

/-- `errorhandler.defaultErrorHandler` (the `(*Response, error)` variant of
part_010): translate the error into a JSON error response, consuming it. -/
def defaultErrorHandler (err : GoError) : Option Response × Option GoError :=
  match GetHTTPError err with
  | some cm =>
      (some ((NewResponse.WithStatus cm.1).WithBody
          (BodyVal.json (Jval.obj [("error", Jval.str cm.2)]))), none)
  | none =>
      (some ((NewResponse.WithStatus 500).WithBody
          (BodyVal.json (Jval.obj [("error", Jval.str "Internal Server Error")]))), none)

/-- `errorhandler.New` with the default options: run the rest of the chain
and translate a non-nil error through the handler. -/
def errorHandlerMW (next : γ → Option Response × Option GoError) :
    γ → Option Response × Option GoError :=
  fun ctx =>
    match next ctx with
    | (_, some err) => defaultErrorHandler err
    | (resp, none) => (resp, none)

/-! ### Dispatch orchestrator (`core.HandleResponse`) -/

/-- `core.HandleResponse`: the returned error and the trace written to the
transport.  A non-nil error is returned untouched and nothing is written;
otherwise a non-nil response is serialized; otherwise nothing happens. -/
def HandleResponse (resp : Option Response) (err : Option GoError) :
    Option GoError × List WireEv :=
  match err with
  | some e => (some e, [])
  | none =>
      match resp with
      | some r => (none, r.Send)
      | none => (none, [])

/-! ### `contextImpl.WithContext` sharing (`adapters/nethttp/context.go`)

The Go struct holds references to its parameter map and key-value bag;
`WithContext` copies the struct, so the copy aliases the same maps.  The
embedding gives each map an address into an explicit heap. -/

/-- The reference structure of `nethttp.contextImpl`: each mutable map is
an address into the heap, the cancellation context is an opaque token. -/
structure NetHttpCtx where
  reqCtx : Nat
  resRef : Nat
  paramsRef : Nat
  queryCacheRef : Nat
  valuesRef : Nat
  statusCode : Nat
  servicesRef : Option Nat

/-- `contextImpl.WithContext`: a field-by-field struct copy carrying the
replacement cancellation context; every map reference is reused. -/
def NetHttpCtx.WithContext (c : NetHttpCtx) (ctx : Nat) : NetHttpCtx :=
  { reqCtx := ctx, resRef := c.resRef, paramsRef := c.paramsRef,
    queryCacheRef := c.queryCacheRef, valuesRef := c.valuesRef,
    statusCode := c.statusCode, servicesRef := c.servicesRef }

/-- The heap holding every key-value bag and parameter map. -/
structure Heap (V : Type) where
  bags : Nat → String → Option V
  paramMaps : Nat → String → Option String

/-- `contextImpl.Set` through a context's bag reference. -/
def Heap.setVal (h : Heap V) (c : NetHttpCtx) (key : String) (v : V) : Heap V :=
  { h with bags := fun r k =>
      if r = c.valuesRef then
        if k = key then some v else h.bags r k
      else h.bags r k }

/-- `contextImpl.Get` through a context's bag reference. -/
def Heap.getVal (h : Heap V) (c : NetHttpCtx) (key : String) : Option V :=
  h.bags c.valuesRef key

/-- Parameter lookup through a context's parameter-map reference. -/
def Heap.paramLookup (h : Heap V) (c : NetHttpCtx) (name : String) : Option String :=
  h.paramMaps c.paramsRef name

/-- A concrete response used by witnesses. -/
def respW : Response :=
  (NewResponse.WithStatus 201).WithBody (BodyVal.str "ok")

/-- A concrete structured error used by witnesses. -/
def errW : GoError :=
  GoError.httpError 404 "User not found"

end Lumora

namespace Lumora

/-- Unfolding `Compose` on a cons cell. -/
theorem Compose_cons (m : Middleware H) (ms : List (Middleware H)) (h : H) :
    Compose (m :: ms) h = m (Compose ms h) := by
  simp [Compose, List.foldl_append]

/-- `Compose` is the nested application `mw₁ (mw₂ (… mwₙ h …))`. -/
theorem Compose_eq_foldr (mws : List (Middleware H)) (h : H) :
    Compose mws h = mws.foldr (fun m acc => m acc) h := by
  induction mws with
  | nil => rfl
  | cons m ms ih => rw [Compose_cons, ih]; rfl

/-- Running the instrumented chain appends pre-events in list order, then the
terminal event, then post-events in reverse order. -/
theorem Compose_tagMW_trace (is : List Nat) (log : List TraceEv) :
    Compose (is.map tagMW) terminalTrace log =
      log ++ is.map TraceEv.pre ++ TraceEv.handler :: (is.reverse.map TraceEv.post) := by
  induction is generalizing log with
  | nil => simp [Compose, terminalTrace]
  | cons i is ih =>
      rw [List.map_cons, Compose_cons]
      show (Compose (is.map tagMW) terminalTrace) (log ++ [TraceEv.pre i]) ++ [TraceEv.post i] = _
      rw [ih]
      simp

/-- C1: `Compose (mw₁ … mwₙ)` applied to a terminal handler `h` is the nested
application `mw₁ (mw₂ (… mwₙ h …))` (the fold from the right), `Compose []`
applied to `h` is `h` itself, and the instrumented chain therefore runs
pre-logic in registration order before the terminal handler and post-logic in
reverse order after it. -/
theorem Compose_spec :
    (∀ (H : Type) (mws : List (Middleware H)) (h : H),
        Compose mws h = mws.foldr (fun m acc => m acc) h) ∧
    (∀ (H : Type) (h : H), Compose ([] : List (Middleware H)) h = h) ∧
    (∀ (is : List Nat) (log : List TraceEv),
        Compose (is.map tagMW) terminalTrace log =
          log ++ is.map TraceEv.pre ++ TraceEv.handler :: (is.reverse.map TraceEv.post)) :=
  ⟨fun _ mws h => Compose_eq_foldr mws h,
   fun _ _ => rfl,
   fun is log => Compose_tagMW_trace is log⟩

/-- The segment loop succeeds exactly when every literal segment agrees with
the corresponding path segment. -/
theorem matchParts_isSome (l : List (List Char × List Char)) :
    (matchParts l).isSome ↔ ∀ p ∈ l, isParamSeg p.1 = false → p.1 = p.2 := by
  induction l with
  | nil => simp [matchParts]
  | cons p rest ih =>
      obtain ⟨pp, qp⟩ := p
      by_cases hp : isParamSeg pp
      · simp [matchParts, hp, ih]
      · by_cases he : pp = qp
        · subst he
          simp [matchParts, hp, ih]
        · simp [matchParts, hp, he]

/-- On success the segment loop returns exactly the `(name, value)` pairs of
the parameter segments, in order. -/
theorem matchParts_eq_some (l : List (List Char × List Char))
    (ps : List (List Char × List Char)) (h : matchParts l = some ps) :
    ps = l.filterMap
      (fun p => if isParamSeg p.1 then some (paramName p.1, p.2) else none) := by
  induction l generalizing ps with
  | nil =>
      simp only [matchParts, Option.some_inj] at h
      subst h
      rfl
  | cons p rest ih =>
      obtain ⟨pp, qp⟩ := p
      by_cases hp : isParamSeg pp
      · simp only [matchParts, hp, if_true, Option.map_eq_some'] at h
        obtain ⟨qs, hqs, rfl⟩ := h
        simp [List.filterMap_cons, hp, ih qs hqs]
      · by_cases he : pp = qp
        · subst he
          simp only [matchParts, hp, if_false, if_true] at h
          simp [List.filterMap_cons, hp, ih ps h]
        · simp [matchParts, hp, he] at h

/-- C7: a route pattern of literal and `:name` segments matches a path
exactly when the segment counts agree and every literal segment equals the
corresponding path segment; on a match each `:name` segment binds `name` to
the corresponding path segment (`/a/:x/b/:y` against `/a/1/b/2` yields
`x = "1", y = "2"`); a differing segment count never matches. -/
theorem matchPattern_spec :
    matchPattern "/a/:x/b/:y" "/a/1/b/2" = some [("x", "1"), ("y", "2")] ∧
    (∀ pattern path : String,
        (segmentsL pattern.toList).length ≠ (segmentsL path.toList).length →
        matchPattern pattern path = none) ∧
    (∀ pattern path : String,
        (matchPattern pattern path).isSome ↔
          (segmentsL pattern.toList).length = (segmentsL path.toList).length ∧
          ∀ p ∈ (segmentsL pattern.toList).zip (segmentsL path.toList),
            isParamSeg p.1 = false → p.1 = p.2) ∧
    (∀ pattern path ps, matchPattern pattern path = some ps →
        ps = ((segmentsL pattern.toList).zip (segmentsL path.toList)).filterMap
          (fun p => if isParamSeg p.1 then some (String.mk (paramName p.1), String.mk p.2)
                    else none)) := by
  refine ⟨by decide, ?_, ?_, ?_⟩
  · intro pattern path hne
    simp only [String.toList] at hne
    simp [matchPattern, if_neg hne]
  · intro pattern path
    simp only [String.toList]
    by_cases hlen : (segmentsL pattern.data).length = (segmentsL path.data).length
    · simp [matchPattern, hlen, matchParts_isSome]
    · simp [matchPattern, hlen]
  · intro pattern path ps h
    simp only [matchPattern, String.toList] at h
    simp only [String.toList]
    by_cases hlen : (segmentsL pattern.data).length = (segmentsL path.data).length
    · rw [if_pos hlen, Option.map_eq_some'] at h
      obtain ⟨qs, hqs, rfl⟩ := h
      rw [matchParts_eq_some _ qs hqs]
      simp [List.map_filterMap, apply_ite]
    · rw [if_neg hlen] at h
      exact absurd h (by simp)

/-- Witness for C7: a path with a different segment count does not match. -/
theorem matchPattern_spec_witness :
    matchPattern "/a/:x/b/:y" "/a/1/b" = none :=
  matchPattern_spec.2.1 "/a/:x/b/:y" "/a/1/b" (by decide)

/-- C9: `Register` stores the value, silently overwriting any existing entry
and never failing; `Get` returns the not-found error exactly when the name is
absent and the stored value otherwise; `MustGet` panics exactly when the name
is absent and returns the stored value otherwise. -/
theorem Container_spec (V : Type) (c : Container V) (name k : String) (v : V) :
    (Container.Register c name v) name = some v ∧
    (k ≠ name → (Container.Register c name v) k = c k) ∧
    (Container.Get c name = Except.error (ServiceError.notFound name) ↔ c name = none) ∧
    (∀ w, c name = some w → Container.Get c name = Except.ok w) ∧
    (Container.MustGet c name = none ↔ c name = none) ∧
    (∀ w, c name = some w → Container.MustGet c name = some w) := by
  refine ⟨?_, ?_, ?_, ?_, ?_, ?_⟩
  · simp [Container.Register]
  · intro hk
    simp [Container.Register, hk]
  · cases hc : c name <;> simp [Container.Get, hc]
  · intro w hw
    simp [Container.Get, hw]
  · cases hc : c name <;> simp [Container.MustGet, Container.Get, hc]
  · intro w hw
    simp [Container.MustGet, Container.Get, hw]

/-- Witness for C9 at a concrete container. -/
theorem Container_spec_witness :
    (Container.Register (Container.Register Container.NewContainer "a" 1) "a" 2) "a" = some 2 ∧
    (Container.Register (Container.Register Container.NewContainer "a" 1) "a" 2) "b" =
      (Container.Register Container.NewContainer "a" 1) "b" := by
  have h := Container_spec Nat (Container.Register Container.NewContainer "a" 1) "a" "b" 2
  exact ⟨h.1, h.2.1 (by decide)⟩

/-- C2: inside a route wrapped in `UseServices`, `Service`/`MustService`
resolve from the scoped container published under the reserved key, which is
seeded with the app-level entries and overlaid with the route entries (route
wins on a name collision); a name absent from the scoped container falls back
to the app level; a name absent from both makes `Service` return the
not-found error and `MustService` panic. -/
theorem UseServices_resolution (V : Type) (app route : Container V)
    (ctx : ContextImpl V) (name : String)
    (hbag : ctx.values appServicesKey = some (BagVal.container app))
    (hsvc : ctx.services = some app) :
    (∃ sc, (UseServices route (fun c => c) ctx).values scopedServicesKey =
        some (BagVal.container sc) ∧
        ∀ k, sc k = match route k with | some v => some v | none => app k) ∧
    (∀ v, route name = some v →
        (UseServices route (fun c => c) ctx).Service name = Except.ok v ∧
        (UseServices route (fun c => c) ctx).MustService name = some v) ∧
    (route name = none → ∀ v, app name = some v →
        (UseServices route (fun c => c) ctx).Service name = Except.ok v ∧
        (UseServices route (fun c => c) ctx).MustService name = some v) ∧
    (route name = none → app name = none →
        (UseServices route (fun c => c) ctx).Service name =
          Except.error (ServiceError.notFound name) ∧
        (UseServices route (fun c => c) ctx).MustService name = none) := by
  have h1 : UseServices route (fun c => c) ctx =
      setScopedServices ctx
        (Container.RegisterAll (Container.RegisterAll Container.NewContainer app) route) := by
    simp [UseServices, getAppServices, ContextImpl.Get, hbag]
  set sc := Container.RegisterAll (Container.RegisterAll Container.NewContainer app) route with hscopeddef
  have hval : (UseServices route (fun c => c) ctx).values scopedServicesKey =
      some (BagVal.container sc) := by
    rw [h1]
    simp [setScopedServices, ContextImpl.Set]
  have hservices : (UseServices route (fun c => c) ctx).services = some app := by
    rw [h1]
    exact hsvc
  have hscoped : ∀ k, sc k = match route k with | some v => some v | none => app k := by
    intro k
    simp only [hscopeddef, Container.RegisterAll, Container.NewContainer]
    cases route k <;> cases app k <;> rfl
  refine ⟨⟨sc, hval, hscoped⟩, ?_, ?_, ?_⟩
  · intro v hv
    have hs : sc name = some v := by rw [hscoped, hv]
    constructor
    · simp [ContextImpl.Service, hval, Container.Get, hs]
    · simp [ContextImpl.MustService, hval, Container.Has, Container.MustGet, Container.Get, hs]
  · intro hr v ha
    have hs : sc name = some v := by rw [hscoped, hr, ha]
    constructor
    · simp [ContextImpl.Service, hval, Container.Get, hs]
    · simp [ContextImpl.MustService, hval, Container.Has, Container.MustGet, Container.Get, hs]
  · intro hr ha
    have hs : sc name = none := by rw [hscoped, hr, ha]
    constructor
    · simp [ContextImpl.Service, hval, Container.Get, hs, ContextImpl.serviceFallback,
        hservices, ha]
    · simp [ContextImpl.MustService, hval, Container.Has, Container.MustGet, Container.Get,
        hs, hservices, ha]

/-- Witness for C2: a route-scoped `userService` shadows the app-level one. -/
theorem UseServices_resolution_witness :
    (UseServices routeW (fun c => c) ctxW).Service "userService" = Except.ok 2 ∧
    (UseServices routeW (fun c => c) ctxW).MustService "userService" = some 2 := by
  have h := UseServices_resolution Nat appW routeW ctxW "userService"
    (by simp [ctxW]) rfl
  exact h.2.1 2 rfl

/-- Looking a key up in an appended header list checks the front first. -/
theorem lookupAssoc_append (a b : List (String × String)) (k : String) :
    lookupAssoc (a ++ b) k =
      match lookupAssoc a k with
      | some v => some v
      | none => lookupAssoc b k := by
  induction a with
  | nil => rfl
  | cons p rest ih =>
      obtain ⟨n, v⟩ := p
      by_cases h : n = k
      · simp [lookupAssoc, h]
      · simp [lookupAssoc, h, ih]

/-- Updating an absent key appends the entry. -/
theorem setAssoc_of_lookup_none (hs : List (String × String)) (name value : String)
    (h : lookupAssoc hs name = none) :
    setAssoc hs name value = hs ++ [(name, value)] := by
  induction hs with
  | nil => rfl
  | cons p rest ih =>
      obtain ⟨n, v⟩ := p
      by_cases hn : n = name
      · simp [lookupAssoc, hn] at h
      · simp only [lookupAssoc, hn, if_neg, ite_false] at h
        simp [setAssoc, hn, ih h]

/-- Replaying the header events of a pairwise-distinct header list onto an
uncommitted transport appends those headers. -/
theorem foldl_setHeader_events (hs : List (String × String)) (t : Transport)
    (ht : t.status = none)
    (hdisj : ∀ p ∈ hs, lookupAssoc t.headers p.1 = none)
    (huniq : hs.Pairwise (fun a b => a.1 ≠ b.1)) :
    List.foldl applyEv t (hs.map fun p => WireEv.setHeader p.1 p.2) =
      { t with headers := t.headers ++ hs } := by
  induction hs generalizing t with
  | nil => simp
  | cons p rest ih =>
      obtain ⟨n, v⟩ := p
      obtain ⟨hn, huniq'⟩ := List.pairwise_cons.mp huniq
      rw [List.map_cons, List.foldl_cons]
      have happ : applyEv t (WireEv.setHeader n v) =
          { t with headers := t.headers ++ [(n, v)] } := by
        simp [applyEv, ht, setAssoc_of_lookup_none _ _ v (hdisj (n, v) (by simp))]
      rw [happ]
      rw [ih { t with headers := t.headers ++ [(n, v)] } ht ?_ huniq']
      · simp
      · intro q hq
        rw [lookupAssoc_append, hdisj q (by simp [hq])]
        simp [lookupAssoc, hn q hq]

/-- Replaying the cookie events onto an uncommitted transport appends the
cookies. -/
theorem foldl_setCookie_events (cs : List Cookie) (t : Transport) (ht : t.status = none) :
    List.foldl applyEv t (cs.map WireEv.setCookie) = { t with cookies := t.cookies ++ cs } := by
  induction cs generalizing t with
  | nil => simp
  | cons c rest ih =>
      rw [List.map_cons, List.foldl_cons]
      have happ : applyEv t (WireEv.setCookie c) = { t with cookies := t.cookies ++ [c] } := by
        simp [applyEv, ht]
      rw [happ, ih { t with cookies := t.cookies ++ [c] } ht]
      simp

/-- Replaying `Send` first installs every accumulated header and cookie. -/
theorem replay_setup (r : Response) (huniq : r.Headers.Pairwise (fun a b => a.1 ≠ b.1))
    (tail : List WireEv) :
    List.foldl applyEv Transport.empty
      ((r.Headers.map fun p => WireEv.setHeader p.1 p.2)
        ++ (r.Cookies.map WireEv.setCookie) ++ tail) =
    List.foldl applyEv
      { headers := r.Headers, cookies := r.Cookies, status := none, bodyChunks := [] }
      tail := by
  rw [List.foldl_append, List.foldl_append]
  rw [foldl_setHeader_events r.Headers Transport.empty rfl (fun p _ => rfl) huniq]
  rw [foldl_setCookie_events r.Cookies _ rfl]
  rfl

/-- Replaying `Send` of a body-less response: only the status is committed. -/
theorem replay_Send_none (r : Response) (huniq : r.Headers.Pairwise (fun a b => a.1 ≠ b.1))
    (hb : r.Body = none) :
    replay r.Send =
      { headers := r.Headers, cookies := r.Cookies,
        status := some r.StatusCode, bodyChunks := [] } := by
  simp only [replay, Response.Send, hb]
  rw [replay_setup r huniq]
  simp [applyEv]

/-- Replaying `Send` of a string body with no accumulated Content-Type. -/
theorem replay_Send_str_infer (r : Response) (s : String)
    (huniq : r.Headers.Pairwise (fun a b => a.1 ≠ b.1))
    (hb : r.Body = some (BodyVal.str s))
    (hct : lookupAssoc r.Headers "Content-Type" = none) :
    replay r.Send =
      { headers := r.Headers ++ [("Content-Type", "text/plain")], cookies := r.Cookies,
        status := some r.StatusCode, bodyChunks := [BodyWire.raw s] } := by
  simp only [replay, Response.Send, hb, hct, Option.isSome_none, Bool.false_eq_true,
    if_false, List.singleton_append]
  rw [replay_setup r huniq]
  simp [applyEv, setAssoc_of_lookup_none r.Headers _ _ hct]

/-- Replaying `Send` of a string body with an accumulated Content-Type. -/
theorem replay_Send_str_explicit (r : Response) (s ct : String)
    (huniq : r.Headers.Pairwise (fun a b => a.1 ≠ b.1))
    (hb : r.Body = some (BodyVal.str s))
    (hct : lookupAssoc r.Headers "Content-Type" = some ct) :
    replay r.Send =
      { headers := r.Headers, cookies := r.Cookies,
        status := some r.StatusCode, bodyChunks := [BodyWire.raw s] } := by
  simp only [replay, Response.Send, hb, hct, Option.isSome_some, if_true, List.nil_append]
  rw [replay_setup r huniq]
  simp [applyEv]

/-- Replaying `Send` of a structured body with no accumulated Content-Type. -/
theorem replay_Send_json_infer (r : Response) (j : Jval)
    (huniq : r.Headers.Pairwise (fun a b => a.1 ≠ b.1))
    (hb : r.Body = some (BodyVal.json j))
    (hct : lookupAssoc r.Headers "Content-Type" = none) :
    replay r.Send =
      { headers := r.Headers ++ [("Content-Type", "application/json")], cookies := r.Cookies,
        status := some r.StatusCode, bodyChunks := [BodyWire.jsonEnc j] } := by
  simp only [replay, Response.Send, hb, hct, Option.isSome_none, Bool.false_eq_true,
    if_false, List.singleton_append]
  rw [replay_setup r huniq]
  simp [applyEv, setAssoc_of_lookup_none r.Headers _ _ hct]

/-- Replaying `Send` of a structured body with an accumulated Content-Type. -/
theorem replay_Send_json_explicit (r : Response) (j : Jval) (ct : String)
    (huniq : r.Headers.Pairwise (fun a b => a.1 ≠ b.1))
    (hb : r.Body = some (BodyVal.json j))
    (hct : lookupAssoc r.Headers "Content-Type" = some ct) :
    replay r.Send =
      { headers := r.Headers, cookies := r.Cookies,
        status := some r.StatusCode, bodyChunks := [BodyWire.jsonEnc j] } := by
  simp only [replay, Response.Send, hb, hct, Option.isSome_some, if_true, List.nil_append]
  rw [replay_setup r huniq]
  simp [applyEv]

/-- C3: `Send` emits every accumulated header and cookie strictly before the
status commit — its trace is header/cookie events, then the status, then only
body bytes — and a header added to the builder after `WithStatus` is still
present in the replayed transport output. -/
theorem Send_ordering :
    (∀ r : Response, ∃ pre rest,
        r.Send = pre ++ WireEv.writeStatus r.StatusCode :: rest ∧
        (∀ p ∈ r.Headers, WireEv.setHeader p.1 p.2 ∈ pre) ∧
        (∀ c ∈ r.Cookies, WireEv.setCookie c ∈ pre) ∧
        (∀ e ∈ pre, (∃ n v, e = WireEv.setHeader n v) ∨ ∃ c, e = WireEv.setCookie c) ∧
        (∀ e ∈ rest, ∃ b, e = WireEv.writeBody b)) ∧
    (∀ (code : Nat) (name value : String),
        lookupAssoc
          (replay ((NewResponse.WithStatus code).WithHeader name value).Send).headers
          name = some value) := by
  constructor
  · intro r
    have hmem : ∀ e ∈ (r.Headers.map fun p => WireEv.setHeader p.1 p.2)
        ++ r.Cookies.map WireEv.setCookie,
        (∃ n v, e = WireEv.setHeader n v) ∨ ∃ c, e = WireEv.setCookie c := by
      intro e he
      rcases List.mem_append.mp he with h | h
      · rcases List.mem_map.mp h with ⟨p, _, rfl⟩
        exact Or.inl ⟨p.1, p.2, rfl⟩
      · rcases List.mem_map.mp h with ⟨c, _, rfl⟩
        exact Or.inr ⟨c, rfl⟩
    have hmemH : ∀ p ∈ r.Headers, WireEv.setHeader p.1 p.2 ∈
        (r.Headers.map fun p => WireEv.setHeader p.1 p.2) ++ r.Cookies.map WireEv.setCookie :=
      fun p hp => List.mem_append_left _ (List.mem_map_of_mem _ hp)
    have hmemC : ∀ c ∈ r.Cookies, WireEv.setCookie c ∈
        (r.Headers.map fun p => WireEv.setHeader p.1 p.2) ++ r.Cookies.map WireEv.setCookie :=
      fun c hc => List.mem_append_right _ (List.mem_map_of_mem _ hc)
    cases hb : r.Body with
    | none =>
        refine ⟨(r.Headers.map fun p => WireEv.setHeader p.1 p.2)
          ++ r.Cookies.map WireEv.setCookie, [], ?_, hmemH, hmemC, hmem, by simp⟩
        simp [Response.Send, hb]
    | some bv =>
        cases bv with
        | str s =>
            by_cases hct : (lookupAssoc r.Headers "Content-Type").isSome
            · refine ⟨(r.Headers.map fun p => WireEv.setHeader p.1 p.2)
                ++ r.Cookies.map WireEv.setCookie,
                [WireEv.writeBody (BodyWire.raw s)], ?_, hmemH, hmemC, hmem, ?_⟩
              · simp [Response.Send, hb, hct]
              · intro e he
                simp only [List.mem_singleton] at he
                exact ⟨BodyWire.raw s, he⟩
            · refine ⟨((r.Headers.map fun p => WireEv.setHeader p.1 p.2)
                ++ r.Cookies.map WireEv.setCookie)
                ++ [WireEv.setHeader "Content-Type" "text/plain"],
                [WireEv.writeBody (BodyWire.raw s)], ?_,
                fun p hp => List.mem_append_left _ (hmemH p hp),
                fun c hc => List.mem_append_left _ (hmemC c hc), ?_, ?_⟩
              · simp [Response.Send, hb, hct]
              · intro e he
                rcases List.mem_append.mp he with h | h
                · exact hmem e h
                · simp only [List.mem_singleton] at h
                  exact Or.inl ⟨"Content-Type", "text/plain", h⟩
              · intro e he
                simp only [List.mem_singleton] at he
                exact ⟨BodyWire.raw s, he⟩
        | json j =>
            by_cases hct : (lookupAssoc r.Headers "Content-Type").isSome
            · refine ⟨(r.Headers.map fun p => WireEv.setHeader p.1 p.2)
                ++ r.Cookies.map WireEv.setCookie,
                [WireEv.writeBody (BodyWire.jsonEnc j)], ?_, hmemH, hmemC, hmem, ?_⟩
              · simp [Response.Send, hb, hct]
              · intro e he
                simp only [List.mem_singleton] at he
                exact ⟨BodyWire.jsonEnc j, he⟩
            · refine ⟨((r.Headers.map fun p => WireEv.setHeader p.1 p.2)
                ++ r.Cookies.map WireEv.setCookie)
                ++ [WireEv.setHeader "Content-Type" "application/json"],
                [WireEv.writeBody (BodyWire.jsonEnc j)], ?_,
                fun p hp => List.mem_append_left _ (hmemH p hp),
                fun c hc => List.mem_append_left _ (hmemC c hc), ?_, ?_⟩
              · simp [Response.Send, hb, hct]
              · intro e he
                rcases List.mem_append.mp he with h | h
                · exact hmem e h
                · simp only [List.mem_singleton] at h
                  exact Or.inl ⟨"Content-Type", "application/json", h⟩
              · intro e he
                simp only [List.mem_singleton] at he
                exact ⟨BodyWire.jsonEnc j, he⟩
  · intro code name value
    have huniq : ((NewResponse.WithStatus code).WithHeader name value).Headers.Pairwise
        (fun a b => a.1 ≠ b.1) := by
      simp [NewResponse, Response.WithStatus, Response.WithHeader, setAssoc]
    rw [replay_Send_none _ huniq rfl]
    simp [NewResponse, Response.WithStatus, Response.WithHeader, setAssoc, lookupAssoc]

/-- Witness for C3: a header set after `WithStatus` survives serialization. -/
theorem Send_ordering_witness :
    lookupAssoc (replay ((NewResponse.WithStatus 201).WithHeader "X-Req" "7").Send).headers
      "X-Req" = some "7" :=
  Send_ordering.2 201 "X-Req" "7"

/-- C6: serializing via `Send`, a nil body writes no body bytes and only
commits the status; a string body writes the raw string with Content-Type
text/plain unless one was explicitly accumulated; any other body writes its
JSON encoding with Content-Type application/json unless one was explicitly
accumulated. -/
theorem Send_body_spec (r : Response)
    (huniq : r.Headers.Pairwise (fun a b => a.1 ≠ b.1)) :
    (r.Body = none →
        (replay r.Send).bodyChunks = [] ∧ (replay r.Send).status = some r.StatusCode) ∧
    (∀ s, r.Body = some (BodyVal.str s) →
        (replay r.Send).bodyChunks = [BodyWire.raw s] ∧
        (replay r.Send).status = some r.StatusCode ∧
        (lookupAssoc r.Headers "Content-Type" = none →
            lookupAssoc (replay r.Send).headers "Content-Type" = some "text/plain") ∧
        (∀ ct, lookupAssoc r.Headers "Content-Type" = some ct →
            lookupAssoc (replay r.Send).headers "Content-Type" = some ct)) ∧
    (∀ j, r.Body = some (BodyVal.json j) →
        (replay r.Send).bodyChunks = [BodyWire.jsonEnc j] ∧
        (replay r.Send).status = some r.StatusCode ∧
        (lookupAssoc r.Headers "Content-Type" = none →
            lookupAssoc (replay r.Send).headers "Content-Type" = some "application/json") ∧
        (∀ ct, lookupAssoc r.Headers "Content-Type" = some ct →
            lookupAssoc (replay r.Send).headers "Content-Type" = some ct)) := by
  refine ⟨?_, ?_, ?_⟩
  · intro hb
    rw [replay_Send_none r huniq hb]
    exact ⟨rfl, rfl⟩
  · intro s hb
    cases hct : lookupAssoc r.Headers "Content-Type" with
    | none =>
        rw [replay_Send_str_infer r s huniq hb hct]
        refine ⟨rfl, rfl, ?_, ?_⟩
        · intro _
          rw [lookupAssoc_append, hct]
          simp [lookupAssoc]
        · intro ct hcs
          exact Option.noConfusion hcs
    | some ct0 =>
        rw [replay_Send_str_explicit r s ct0 huniq hb hct]
        refine ⟨rfl, rfl, ?_, ?_⟩
        · intro h0
          exact Option.noConfusion h0
        · intro ct hcs
          exact hct.trans hcs
  · intro j hb
    cases hct : lookupAssoc r.Headers "Content-Type" with
    | none =>
        rw [replay_Send_json_infer r j huniq hb hct]
        refine ⟨rfl, rfl, ?_, ?_⟩
        · intro _
          rw [lookupAssoc_append, hct]
          simp [lookupAssoc]
        · intro ct hcs
          exact Option.noConfusion hcs
    | some ct0 =>
        rw [replay_Send_json_explicit r j ct0 huniq hb hct]
        refine ⟨rfl, rfl, ?_, ?_⟩
        · intro h0
          exact Option.noConfusion h0
        · intro ct hcs
          exact hct.trans hcs

/-- Witness for C6 at the spec's two example bodies. -/
theorem Send_body_spec_witness :
    (replay (NewResponse.WithBody (BodyVal.str "plain text")).Send).bodyChunks =
      [BodyWire.raw "plain text"] ∧
    lookupAssoc (replay (NewResponse.WithBody (BodyVal.str "plain text")).Send).headers
      "Content-Type" = some "text/plain" ∧
    (replay (NewResponse.WithBody
        (BodyVal.json (Jval.obj [("k", Jval.str "v")]))).Send).bodyChunks =
      [BodyWire.jsonEnc (Jval.obj [("k", Jval.str "v")])] ∧
    lookupAssoc (replay (NewResponse.WithBody
        (BodyVal.json (Jval.obj [("k", Jval.str "v")]))).Send).headers
      "Content-Type" = some "application/json" := by
  have h1 := Send_body_spec (NewResponse.WithBody (BodyVal.str "plain text"))
    List.Pairwise.nil
  have h2 := Send_body_spec (NewResponse.WithBody
    (BodyVal.json (Jval.obj [("k", Jval.str "v")]))) List.Pairwise.nil
  obtain ⟨hb1, hs1, hct1, h1r⟩ := h1.2.1 "plain text" rfl
  obtain ⟨hb2, hs2, hct2, h2r⟩ := h2.2.2 (Jval.obj [("k", Jval.str "v")]) rfl
  exact ⟨hb1, hct1 rfl, hb2, hct2 rfl⟩

/-- C4: an error reaching the error-handler middleware is passed to
`defaultErrorHandler`, which produces (consuming the error) a response whose
body is the JSON object `error ↦ message` with the structured error's code;
an error that is not a recognized structured HTTP error yields status 500
and message "Internal Server Error"; the serialized wire output carries that
status, exactly that JSON body, and Content-Type application/json. -/
theorem errorHandler_spec :
    (∀ (γ : Type) (next : γ → Option Response × Option GoError) (ctx : γ)
        (resp0 : Option Response) (err : GoError),
        next ctx = (resp0, some err) →
        errorHandlerMW next ctx = defaultErrorHandler err) ∧
    (∀ code msg,
        defaultErrorHandler (GoError.httpError code msg) =
          (some ((NewResponse.WithStatus code).WithBody
              (BodyVal.json (Jval.obj [("error", Jval.str msg)]))), none)) ∧
    (∀ err, GetHTTPError err = none →
        defaultErrorHandler err =
          (some ((NewResponse.WithStatus 500).WithBody
              (BodyVal.json (Jval.obj [("error", Jval.str "Internal Server Error")]))),
            none)) ∧
    (∀ (code : Nat) (msg : String),
        (replay ((NewResponse.WithStatus code).WithBody
            (BodyVal.json (Jval.obj [("error", Jval.str msg)]))).Send).status = some code ∧
        (replay ((NewResponse.WithStatus code).WithBody
            (BodyVal.json (Jval.obj [("error", Jval.str msg)]))).Send).bodyChunks =
          [BodyWire.jsonEnc (Jval.obj [("error", Jval.str msg)])] ∧
        lookupAssoc (replay ((NewResponse.WithStatus code).WithBody
            (BodyVal.json (Jval.obj [("error", Jval.str msg)]))).Send).headers
          "Content-Type" = some "application/json") := by
  refine ⟨?_, ?_, ?_, ?_⟩
  · intro γ next ctx resp0 err hnext
    simp [errorHandlerMW, hnext]
  · intro code msg
    rfl
  · intro err h
    simp [defaultErrorHandler, h]
  · intro code msg
    rw [replay_Send_json_infer
      ((NewResponse.WithStatus code).WithBody
        (BodyVal.json (Jval.obj [("error", Jval.str msg)])))
      (Jval.obj [("error", Jval.str msg)]) List.Pairwise.nil rfl rfl]
    exact ⟨rfl, rfl, by simp [lookupAssoc]⟩

/-- Witness for C4 at a concrete 404 error. -/
theorem errorHandler_spec_witness :
    errorHandlerMW (fun _ : Unit => (none, some errW)) () = defaultErrorHandler errW ∧
    defaultErrorHandler errW =
      (some ((NewResponse.WithStatus 404).WithBody
          (BodyVal.json (Jval.obj [("error", Jval.str "User not found")]))), none) :=
  ⟨errorHandler_spec.1 Unit (fun _ => (none, some errW)) () none errW rfl,
    errorHandler_spec.2.1 404 "User not found"⟩

/-- C5: `HandleResponse` returns a non-nil error untouched and writes
nothing (even when the response is non-nil); with a nil error it serializes
a non-nil response; with both nil it writes nothing. -/
theorem HandleResponse_spec (resp : Option Response) (err : Option GoError) :
    (∀ e, err = some e → HandleResponse resp err = (some e, [])) ∧
    (err = none → ∀ r, resp = some r → HandleResponse resp err = (none, r.Send)) ∧
    (err = none → resp = none → HandleResponse resp err = (none, [])) := by
  refine ⟨?_, ?_, ?_⟩
  · rintro e rfl
    rfl
  · rintro rfl r rfl
    rfl
  · rintro rfl rfl
    rfl

/-- Witness for C5 on concrete pairs. -/
theorem HandleResponse_spec_witness :
    HandleResponse (some respW) (some errW) = (some errW, []) ∧
    HandleResponse (some respW) none = (none, respW.Send) ∧
    HandleResponse none none = (none, []) :=
  ⟨(HandleResponse_spec (some respW) (some errW)).1 errW rfl,
    (HandleResponse_spec (some respW) none).2.1 rfl respW rfl,
    (HandleResponse_spec none none).2.2 rfl rfl⟩

/-- C8: `WithContext` reuses the bag and parameter-map references of the
original context — the field-by-field struct copy aliases both maps — so a
`Set` performed through either the original or the derived context is
observable through a `Get` on the other, and parameter lookups through
either context read the same shared map. -/
theorem WithContext_shares (V : Type) (h : Heap V) (c : NetHttpCtx) (x : Nat)
    (key : String) (v : V) (name : String) :
    (c.WithContext x).valuesRef = c.valuesRef ∧
    (c.WithContext x).paramsRef = c.paramsRef ∧
    Heap.getVal (Heap.setVal h c key v) (c.WithContext x) key = some v ∧
    Heap.getVal (Heap.setVal h (c.WithContext x) key v) c key = some v ∧
    Heap.paramLookup h (c.WithContext x) name = Heap.paramLookup h c name := by
  refine ⟨rfl, rfl, ?_, ?_, rfl⟩ <;>
    simp [NetHttpCtx.WithContext, Heap.setVal, Heap.getVal]

end Lumora
